import Mathlib

/-!
Shallow embedding of `adabot/circuitpython_bundle.py` (the bundle update and
release-note synthesis engine) and proofs about it.

External collaborators (the git command layer, the GitHub REST API and the
Redis identity cache) are modelled as explicit oracle parameters, following
the repository's own separation: the engine only consumes their exact text
output.  Python strings are Lean `String`s; Python dictionaries (insertion
ordered) are association lists `List (String × α)`; a raised exception is an
`Except` error value.  `sh.ErrorReturnCode_128` is `GitErr.code128`.
-/

/-- Exit status of an external `git` invocation, as seen through the `sh`
library: either captured stdout, the special exit code 128, or any other
failure. -/
inductive GitErr where
  | code128
  | other (msg : String)
deriving DecidableEq, Repr

/-- Python exception classes that the engine can raise: `RuntimeError`
(raised explicitly by `update_bundle`), an uncaught `sh.ErrorReturnCode`
from a git call, and `ValueError`/`IndexError`-style failures from tuple
unpacking or indexing. -/
inductive Exc where
  | runtimeError (msg : String)
  | gitError (msg : String)
  | valueError (msg : String)
deriving DecidableEq, Repr

/-! ### Python string primitives

The engine's parsing is all single-character `str.split`, `str.strip`,
`str.join` and slicing; we embed those Python semantics directly over
`List Char`. -/

/-- The newline character (used instead of a character literal). -/
def nlChar : Char := Char.ofNat 10

/-- The full-stop character. -/
def dotChar : Char := Char.ofNat 46

/-- The comma character. -/
def commaChar : Char := Char.ofNat 44

/-- The slash character. -/
def slashChar : Char := Char.ofNat 47

/-- The colon character. -/
def colonChar : Char := Char.ofNat 58

/-- Python `str.split(sep)` for a one-character separator, over `List Char`:
keeps empty fields and never returns an empty list. -/
def splitChar (c : Char) : List Char → List (List Char)
  | [] => [[]]
  | a :: rest =>
    if a = c then [] :: splitChar c rest
    else
      match splitChar c rest with
      | h :: t => (a :: h) :: t
      | [] => [[a]]

/-- Python `s.split(sep)` for a one-character separator. -/
def pySplit (c : Char) (s : String) : List String :=
  (splitChar c s.data).map String.mk

/-- Python `s.split("\n")`. -/
def pySplitNl (s : String) : List String := pySplit nlChar s

/-- Python `s.split(".")`. -/
def pySplitDot (s : String) : List String := pySplit dotChar s

/-- Python `s.split(",")`. -/
def pySplitComma (s : String) : List String := pySplit commaChar s

/-- Python `s.split("/")`. -/
def pySplitSlash (s : String) : List String := pySplit slashChar s

/-- Helper for `pySplitWs`: whitespace-run splitting with an accumulator for
the word currently being read (in reverse). -/
def wsSplitAux : List Char → List Char → List (List Char)
  | cur, [] => if cur = [] then [] else [cur.reverse]
  | cur, a :: rest =>
    if a.isWhitespace then
      if cur = [] then wsSplitAux [] rest else cur.reverse :: wsSplitAux [] rest
    else wsSplitAux (a :: cur) rest

/-- Python `s.split()` (no argument): split on runs of whitespace, no empty
fields. -/
def pySplitWs (s : String) : List String :=
  (wsSplitAux [] s.data).map String.mk

/-- Python `s.strip()`: remove leading and trailing whitespace. -/
def pyStrip (s : String) : String :=
  String.mk (((s.data.dropWhile Char.isWhitespace).reverse.dropWhile Char.isWhitespace).reverse)

/-- Python `s.strip(":")`: remove leading and trailing colons. -/
def pyStripColon (s : String) : String :=
  String.mk (((s.data.dropWhile (· = colonChar)).reverse.dropWhile (· = colonChar)).reverse)

/-- Python `sep.join(parts)`. -/
def pyJoin (sep : String) : List String → String
  | [] => ""
  | [x] => x
  | x :: rest => x ++ sep ++ pyJoin sep rest

/-- Python `s[:-n]` for `n ≥ 0`: drop the last `n` characters (empty result
when the string is shorter than `n`). -/
def pyDropRight (s : String) (n : Nat) : String :=
  String.mk (s.data.take (s.data.length - n))

/-- Python `s[a:b]` for non-negative bounds. -/
def pySlice (s : String) (a b : Nat) : String :=
  String.mk ((s.data.drop a).take (b - a))

/-- Python `s[n:]` for `n ≥ 0`. -/
def pyDropLeft (s : String) (n : Nat) : String :=
  String.mk (s.data.drop n)

/-- Python `s.startswith(pre)`. -/
def pyStartswith (s pre : String) : Bool :=
  pre.data.isPrefixOf s.data

/-- Python `s.endswith(suf)`. -/
def pyEndswith (s suf : String) : Bool :=
  suf.data.isSuffixOf s.data

/-- Character-list substring test: does `needle` occur contiguously in the
haystack? -/
def containsSub (needle : List Char) : List Char → Bool
  | [] => needle.isPrefixOf []
  | a :: rest => needle.isPrefixOf (a :: rest) || containsSub needle rest

/-- Python `sub in s` (substring containment). -/
def pyContains (sub s : String) : Bool :=
  containsSub sub.data s.data

/-- Python `str.rfind(ch)` for a one-character needle: index of the last
occurrence, or `-1` when absent. -/
def pyRfind (c : Char) (s : String) : Int :=
  match (s.data.reverse.findIdx? (· = c)) with
  | some i => Int.ofNat (s.data.length - 1 - i)
  | none => -1

/-- Python truthiness of an optional string (`None` and `""` are falsy). -/
def pyTruthy : Option String → Bool
  | none => false
  | some s => decide (s ≠ "")

/-! ### Python dictionaries as insertion-ordered association lists -/

/-- `d[k]` as an option (first matching key). -/
def dictGet {α : Type} : List (String × α) → String → Option α
  | [], _ => none
  | (k, v) :: rest, key => if k = key then some v else dictGet rest key

/-- `k in d`. -/
def dictContains {α : Type} (d : List (String × α)) (k : String) : Bool :=
  (dictGet d k).isSome

/-- `d[k] = v`: overwrite the existing entry in place, else append. -/
def dictSet {α : Type} : List (String × α) → String → α → List (String × α)
  | [], k, v => [(k, v)]
  | (k', v') :: rest, k, v =>
    if k' = k then (k, v) :: rest else (k', v') :: dictSet rest k v

/-- `d[k] += n` for a key that is present (no-op on an absent key, which the
source never exercises: every `+=` is preceded by an insert-if-absent). -/
def dictAdd : List (String × Nat) → String → Nat → List (String × Nat)
  | [], _, _ => []
  | (k, v) :: rest, key, n =>
    if k = key then (k, v + n) :: rest else (k, v) :: dictAdd rest key n

deriving instance DecidableEq for Except

/-- A contributor tally: Python dict from GitHub handle to commit weight. -/
abbrev Tally := List (String × Nat)

/-- The Redis identity cache: Python dict from `github_username:<email>` keys
to GitHub handles. -/
abbrev Cache := List (String × String)

/-- Python `sorted(l, key=...)` as a stable insertion: insert `x` after every
element that compares `le` to it. -/
def pyInsertSorted (le : α → α → Bool) (x : α) : List α → List α
  | [] => [x]
  | y :: ys => if le y x && !(le x y) then y :: pyInsertSorted le x ys else x :: y :: ys

/-- Python `sorted(l)`: stable sort by the boolean total preorder `le`. -/
def pySorted (le : α → α → Bool) : List α → List α
  | [] => []
  | x :: xs => pyInsertSorted le x (pySorted le xs)

/-! ### `commit_to_tag` (the Reference Resolver, lines 162-171) -/

/-- `commit_to_tag(repo_path, commit)`: run
`git describe --tags --exact-match commit` inside `repo_path` (the
`describe` oracle).  On success the stripped stdout (the exact tag) replaces
the commit; exit code 128 ("no tag exactly matches") leaves the commit
unchanged; any other failure propagates. -/
def commit_to_tag (describe : String → String → Except GitErr String)
    (repo_path commit : String) : Except GitErr String :=
  match describe repo_path commit with
  | .ok output => .ok (pyStrip output)
  | .error .code128 => .ok commit
  | .error e => .error e

/-- `repo_remote_url(repo_path)`: stripped stdout of
`git remote get-url origin` inside `repo_path`. -/
def repo_remote_url (remoteUrl : String → String) (repo_path : String) : String :=
  pyStrip (remoteUrl repo_path)

/-! ### `update_bundle` (the Status Scanner, lines 200-251) -/

/-- The git command layer as seen by `update_bundle`, per submodule
directory: `git describe` (for `commit_to_tag`),
`git diff --submodule=log <dir>` stdout, and `git remote get-url origin`
stdout. -/
structure GitEnv where
  describeTag : String → String → Except GitErr String
  diffSubmoduleLog : String → String
  remoteUrl : String → String

/-- Lift a residual git failure (after `commit_to_tag` has absorbed exit
code 128) into the engine's exception type. -/
def liftGit : Except GitErr String → Except Exc String
  | .ok s => .ok s
  | .error .code128 => .error (.gitError "128")
  | .error (.other m) => .error (.gitError m)

/-- One entry of `updates`: `(url[:-4], old_commit, new_commit, summary)`. -/
abbrev UpdateRec := String × String × String × String

/-- The body of `update_bundle`'s status loop for one line of
`git status --short` output: skip the library-list document's own line,
raise `RuntimeError("Unsupported updates")` for any action other than `M`
or any path outside `libraries`, and otherwise scan the per-entry
`git diff --submodule=log` output into an update record. -/
def processStatusLine (env : GitEnv) (status_line : String) : Except Exc (Option UpdateRec) :=
  match pySplitWs status_line with
  | [action, directory] =>
    if pyEndswith directory "library_list.md" then .ok none
    else if action ≠ "M" ∨ pyStartswith directory "libraries" = false then
      .error (.runtimeError "Unsupported updates")
    else
      let diff_lines := pySplitNl (env.diffSubmoduleLog directory)
      match (pySplitWs (diff_lines.headD ""))[2]? with
      | none => .error (.valueError "list index out of range")
      | some range_tok =>
        let commit_range := pySplitDot (pyStripColon range_tok)
        do
          let old_commit ← liftGit (commit_to_tag env.describeTag directory (commit_range.headD ""))
          let new_commit ← liftGit (commit_to_tag env.describeTag directory (commit_range.getLastD ""))
          let url := repo_remote_url env.remoteUrl directory
          let summary := pyJoin "\n" ((diff_lines.drop 1).dropLast)
          .ok (some (pyDropRight url 4, old_commit, new_commit, summary))
  | _ => .error (.valueError "unpack mismatch")

/-- `update_bundle(bundle_path)` after the fast-forward step: scan the
(stripped) `git status --short` output line by line, then append the
library-list record when `check_lib_links_md` reported additions (the
latter's result is passed in as `lib_list_updates`). -/
def update_bundle (env : GitEnv) (status_raw : String) (lib_list_updates : List String) :
    Except Exc (List UpdateRec) := do
  let status := pyStrip status_raw
  let updates ←
    if status = "" then pure []
    else
      (pySplitNl status).foldlM
        (fun acc line => do
          match ← processStatusLine env line with
          | some u => pure (acc ++ [u])
          | none => pure acc)
        []
  if lib_list_updates ≠ [] then
    pure (updates ++
      [("https://github.com/adafruit/Adafruit_CircuitPython_Bundle/circuitpython_library_list.md",
        "NA", "NA",
        "  > Added the following libraries: " ++ pyJoin ", " lib_list_updates)])
  else
    pure updates

/-- A git oracle with no output anywhere, used to instantiate negative
scenarios. -/
def stubGitEnv : GitEnv where
  describeTag := fun _ _ => .error .code128
  diffSubmoduleLog := fun _ => ""
  remoteUrl := fun _ => ""

/-- The concrete scenario of the claim's example: one modified driver
submodule whose diff summary ranges over `abc123..def456` with one summary
line, no exact tag at either commit. -/
def fooGitEnv : GitEnv where
  describeTag := fun _ _ => .error .code128
  diffSubmoduleLog := fun _ => "Submodule libraries/drivers/foo abc123..def456:\n  > bumped version\n"
  remoteUrl := fun _ => "https://github.com/adafruit/foo.git\n"

/-! ### The `__main__` loop (lines 450-465) -/

/-- The two bundles processed by the main loop. -/
def BUNDLES : List String := ["Adafruit_CircuitPython_Bundle", "CircuitPython_Community_Bundle"]

/-- The body of the per-bundle `try` block: fetch, update, commit and push
when there are updates, then release.  Each stage is an oracle so that the
loop's error handling can be studied for every failure mode. -/
def bundleStep (fetch : String → Except Exc Unit)
    (update : String → Except Exc (List UpdateRec))
    (commitPush : String → List UpdateRec → Except Exc Unit)
    (release : String → Except Exc Unit) (bundle : String) : Except Exc Unit := do
  fetch bundle
  let updates_needed ← update bundle
  if updates_needed ≠ [] then commitPush bundle updates_needed
  release bundle

/-- The `for cp_bundle in BUNDLES` loop: run the step for each bundle; a
`RuntimeError` is caught by the `except RuntimeError` clause, logged with the
bundle's name, and the loop continues; any other exception propagates out of
the script (aborting the remaining bundles).  The result collects the
"Failed to update and release" log entries. -/
def processBundles (step : String → Except Exc Unit) :
    List String → Except Exc (List (String × String))
  | [] => .ok []
  | b :: rest =>
    match step b with
    | .ok _ => processBundles step rest
    | .error (.runtimeError m) =>
      match processBundles step rest with
      | .ok logs => .ok ((b, m) :: logs)
      | .error e => .error e
    | .error e => .error e

/-- `__main__`: process both bundles. -/
def mainLoop (fetch : String → Except Exc Unit)
    (update : String → Except Exc (List UpdateRec))
    (commitPush : String → List UpdateRec → Except Exc Unit)
    (release : String → Except Exc Unit) : Except Exc (List (String × String)) :=
  processBundles (bundleStep fetch update commitPush release) BUNDLES

/-! ### `get_contributors` (the Contributor Aggregator, lines 278-316) -/

/-- The `author`/`committer` objects of the GitHub commit-detail response:
`none` models a JSON `null` (no resolvable account). -/
structure GhInfo where
  author : Option String
  committer : Option String

/-- Lines 291-304: resolve the author and committer emails of one commit
through the Redis cache (`github_username:<email>` keys); on a miss of
either, query the commit-detail endpoint (`gh`) and populate the cache for
the emails whose account object is present.  Returns the resolved author,
resolved committer, and the updated cache. -/
def resolveIds (cache : Cache) (gh : String → GhInfo) (sha author_email committer_email : String) :
    Option String × Option String × Cache :=
  let author := dictGet cache ("github_username:" ++ author_email)
  let committer := dictGet cache ("github_username:" ++ committer_email)
  if pyTruthy author = false ∨ pyTruthy committer = false then
    let github_commit_info := gh sha
    let (author, cache) :=
      match github_commit_info.author with
      | some login => (some login, dictSet cache ("github_username:" ++ author_email) login)
      | none => (author, cache)
    let (committer, cache) :=
      match github_commit_info.committer with
      | some login => (some login, dictSet cache ("github_username:" ++ committer_email) login)
      | none => (committer, cache)
    (author, committer, cache)
  else
    (author, committer, cache)

/-- Lines 306-315: update the tally for one commit.  A committer email equal
to `noreply@github.com` drops committer credit; author and committer are
initialized at 0 when newly seen (guarded by Python truthiness); the author
gains 1; the committer independently gains 1 when distinct from the
author. -/
def insertZero (d : Tally) (x : Option String) : Tally :=
  match x with
  | some a => if a ≠ "" ∧ dictContains d a = false then d ++ [(a, 0)] else d
  | none => d

/-- Continuation of `creditCommit` (here so each Python statement of lines
306-315 is visible): `if x and x not in d: d[x] = 0` is `insertZero`, then
`if author: contributors[author] += 1` and
`if committer and committer != author: contributors[committer] += 1`. -/
def creditCommit (contributors : Tally) (author committer : Option String)
    (committer_email : String) : Tally :=
  let committer := if committer_email = "noreply@github.com" then none else committer
  let t1 := insertZero contributors author
  let t2 := insertZero t1 committer
  let t3 :=
    match author with
    | some a => if a ≠ "" then dictAdd t2 a 1 else t2
    | none => t2
  match committer with
  | some c => if c ≠ "" ∧ some c ≠ author then dictAdd t3 c 1 else t3
  | none => t3

/-- Line 290: `sha, author_email, committer_email = log_line.split(",")`
(a `ValueError` when the line does not have exactly three fields). -/
def parseLogLine (log_line : String) : Except Exc (String × String × String) :=
  match pySplitComma log_line with
  | [sha, author_email, committer_email] => .ok (sha, author_email, committer_email)
  | _ => .error (.valueError "unpack mismatch")

/-- `get_contributors(repo, commit_range)`.  `log` is
`git log --pretty=tformat:%H,%ae,%ce <range>` in the ambient working
directory; `gh` the commit-detail endpoint for `repo`.  Exit code 128 prints
a skip message and leaves the captured output empty; any other git failure
propagates.  Empty output returns an empty tally.  Otherwise each log line
is parsed, resolved and credited, threading the Redis cache.  Returns the
tally, the final cache and the printed messages. -/
def get_contributors (log : String → Except GitErr String) (gh : String → GhInfo)
    (repo commit_range : String) (cache : Cache) :
    Except Exc (Tally × Cache × List String) :=
  match log commit_range with
  | .error (.other m) => .error (.gitError m)
  | .error .code128 =>
    .ok ([], cache, ["Skipping contributors for: " ++ repo])
  | .ok out =>
    let output := pyStrip out
    if output = "" then .ok ([], cache, [])
    else do
      let (contributors, cache) ←
        (pySplitNl output).foldlM
          (fun (acc : Tally × Cache) log_line => do
            let (sha, author_email, committer_email) ← parseLogLine log_line
            let (author, committer, cache) := resolveIds acc.2 gh sha author_email committer_email
            pure (creditCommit acc.1 author committer committer_email, cache))
          ([], cache)
      .ok (contributors, cache, [])

/-- Keys of a Python dict are distinct (the representation invariant of an
association list standing for a dict). -/
def keysNodup {α : Type} (d : List (String × α)) : Prop :=
  (d.map Prod.fst).Nodup

/-- All weights positive. -/
def allPos (t : Tally) : Prop := ∀ p ∈ t, 0 < p.2

/-! ### `add_contributors` (lines 327-333) -/

/-- `add_contributors(master_list, additions)`: for each contributor key of
`additions`, insert it into the master dict at 0 when absent, then add that
contributor's weight from `additions`. -/
def add_contributors (master_list additions : Tally) : Tally :=
  (additions.map Prod.fst).foldl
    (fun master contributor =>
      dictAdd (if dictContains master contributor = false then master ++ [(contributor, 0)]
        else master) contributor ((dictGet additions contributor).getD 0))
    master_list

/-! ### `check_lib_links_md` (the Library List Synchronizer, lines 79-145) -/

/-- One bundle submodule as enumerated by
`common_funcs.get_bundle_submodules()`: its containing path and remote
URL. -/
structure SubEntry where
  path : String
  url : String
deriving DecidableEq, Repr

/-- The external lookups of the synchronizer:
`common_funcs.repo_is_on_pypi({"name": url_name})` and
`common_funcs.get_docs_link(bundle_path, submodule)` (a falsy result is
`none`). -/
structure LibEnv where
  onPyPi : String → Bool
  docsLink : SubEntry → Option String

/-- Python `s.replace(c, rep)` for a one-character pattern. -/
def pyReplaceChar (c : Char) (rep : String) (s : String) : String :=
  String.mk (s.data.foldr (fun a acc => if a = c then rep.data ++ acc else a :: acc) [])

/-- Python `s.lower()` (ASCII). -/
def pyLower (s : String) : String :=
  String.mk (s.data.map Char.toLower)

/-- The underscore character. -/
def underscoreChar : Char := Char.ofNat 95

/-- `url[url.rfind("/") + 1 : url.rfind(".") if url.rfind(".") > url.rfind("/")
else len(url)]`: the repository name segment of the URL. -/
def url_name_of (url : String) : String :=
  pySlice url (pyRfind slashChar url + 1).toNat
    (if pyRfind dotChar url > pyRfind slashChar url then (pyRfind dotChar url).toNat
     else url.data.length)

/-- The rendered listing line of one submodule:
`* [<title>](<url>)[ (PyPi link)][ \(Docs link)]`. -/
def listLine (env : LibEnv) (submodule : SubEntry) : String :=
  let url := submodule.url
  let url_name := url_name_of url
  let pypi_name :=
    if env.onPyPi url_name then
      " ([PyPi](https://pypi.org/project/"
        ++ pyLower (pyReplaceChar underscoreChar "-" url_name) ++ "))"
    else ""
  let docs_name :=
    match env.docsLink submodule with
    | some docs_link => " \\([Docs](" ++ docs_link ++ "))"
    | none => ""
  let title := pyReplaceChar underscoreChar " " url_name
  "* [" ++ title ++ "](" ++ url ++ ")" ++ pypi_name ++ docs_name

/-- The fixed document header (`lib_list_header`, lines 124-133). -/
def lib_list_header (lib_count : Nat) : List String :=
  ["# Adafruit CircuitPython Libraries",
   "![Blinka Reading](https://raw.githubusercontent.com/adafruit/circuitpython-weekly-"
     ++ "newsletter/gh-pages/assets/archives/22_1023blinka.png)",
   "Here is a listing of current Adafruit CircuitPython Libraries.",
   "There are " ++ toString lib_count ++ " libraries available.\n",
   "## Drivers:\n"]

/-- String comparison used by Python `sorted` on strings. -/
def strLe (a b : String) : Bool := decide (a ≤ b)

/-- The write loop `for line in sorted(...): md_file.write(line + "\n")`. -/
def writeLines : List String → String
  | [] => ""
  | l :: rest => l ++ "\n" ++ writeLines rest

/-- The full document written to `circuitpython_library_list.md` (the
sequence of `md_file.write` calls of lines 135-143). -/
def mdContent (lib_count : Nat) (write_drivers write_helpers : List String) : String :=
  pyJoin "\n" (lib_list_header lib_count)
  ++ writeLines (pySorted strLe write_drivers)
  ++ "\n## Helpers:\n"
  ++ writeLines (pySorted strLe write_helpers)

/-- The loop of lines 102-122: per submodule, record an update when its
rendered line is not among the previously persisted lines, and bucket the
line by category. -/
def libListStep (env : LibEnv) (read_lines : List String)
    (acc : List String × List String × List String) (submodule : SubEntry) :
    List String × List String × List String :=
  let (updates_made, write_drivers, write_helpers) := acc
  let list_line := listLine env submodule
  let updates_made :=
    if list_line ∉ read_lines then updates_made ++ [url_name_of submodule.url]
    else updates_made
  if pyContains "drivers" submodule.path then
    (updates_made, write_drivers ++ [list_line], write_helpers)
  else if pyContains "helpers" submodule.path then
    (updates_made, write_drivers, write_helpers ++ [list_line])
  else
    (updates_made, write_drivers, write_helpers)

/-- `check_lib_links_md(bundle_path)`: only the primary bundle is processed;
submodules are enumerated sorted by path; each rendered line is compared
against the previously persisted document (`read_lines`) and bucketed; the
document is rewritten in full.  Returns `updates_made` and the written
content (`none` when nothing is written). -/
def check_lib_links_md (env : LibEnv) (bundle_path : String) (submodules : List SubEntry)
    (read_lines : List String) : List String × Option String :=
  if pyContains "Adafruit_CircuitPython_Bundle" bundle_path = false then ([], none)
  else
    let submodules_list := pySorted (fun a b => strLe a.path b.path) submodules
    let lib_count := submodules_list.length
    let (updates_made, write_drivers, write_helpers) :=
      submodules_list.foldl (libListStep env read_lines) ([], [], [])
    (updates_made, some (mdContent lib_count write_drivers write_helpers))

/-- Python `.splitlines()` for text whose only line separator is `"\n"`:
split on newlines and drop the trailing empty piece. -/
def splitlinesPy (s : String) : List String :=
  let parts := pySplitNl s
  if parts.getLast? = some "" then parts.dropLast else parts

/-- The document as a list of lines (what `splitlinesPy` recovers from
`mdContent`). -/
def mdLines (lib_count : Nat) (write_drivers write_helpers : List String) : List String :=
  ["# Adafruit CircuitPython Libraries",
   "![Blinka Reading](https://raw.githubusercontent.com/adafruit/circuitpython-weekly-"
     ++ "newsletter/gh-pages/assets/archives/22_1023blinka.png)",
   "Here is a listing of current Adafruit CircuitPython Libraries.",
   "There are " ++ toString lib_count ++ " libraries available.",
   "",
   "## Drivers:"]
  ++ pySorted strLe write_drivers
  ++ ["", "## Helpers:"]
  ++ pySorted strLe write_helpers

/-- The raw text of a line sequence: each line followed by a newline. -/
def renderData : List (List Char) → List Char
  | [] => []
  | l :: rest => l ++ nlChar :: renderData rest

/-- A one-driver bundle with no PyPI or docs links, for concrete runs. -/
def demoLibEnv : LibEnv where
  onPyPi := fun _ => false
  docsLink := fun _ => none

/-- The single submodule of the concrete bundle. -/
def demoSubs : List SubEntry :=
  [⟨"libraries/drivers/Foo_Bar", "https://github.com/a/Foo_Bar.git"⟩]

/-- The document the first concrete run writes. -/
def demoContent : String :=
  ((check_lib_links_md demoLibEnv "bundles/Adafruit_CircuitPython_Bundle" demoSubs []).2).getD ""

/-! ### `new_release` (the Release Composer, lines 336-447) -/

/-- `repo_name(url)`: strip `.git` and keep the last two `/`-separated
segments (the URL always has at least two segments here). -/
def repo_name (url : String) : String :=
  let url := if pyEndswith url ".git" then pyDropRight url 4 else url
  let parts := pySplitSlash url
  (parts[parts.length - 2]?).getD "" ++ "/" ++ parts.getLastD ""

/-- The collaborators `new_release` consumes: the latest-release tag from the
release-hosting API, the `git diff --submodule=short <tag>..` output, and
the per-directory git/GitHub oracles (`gitLog dir range`,
`ghCommit repo sha`).  `todayTag`/`todayName`/`headSha` are the date and
`repo_sha()` inputs of the release dict. -/
structure RelEnv where
  latestTag : String
  diffShort : String
  remoteUrl : String → String
  describeTag : String → String → Except GitErr String
  gitLog : String → String → Except GitErr String
  ghCommit : String → String → GhInfo
  todayTag : String
  todayName : String
  headSha : String

/-- The release payload posted to `/repos/adafruit/<bundle>/releases`. -/
structure Release where
  tag_name : String
  target_commitish : String
  name : String
  body : String
  draft : Bool
  prerelease : Bool
deriving DecidableEq, Repr

/-- The loop state of the diff scan (lines 345-388). -/
structure RelState where
  current_submodule : Option String
  current_index : Option String
  added_submodules : List String
  updated_submodules : List String
  repo_links : List (String × String)
  contributors : Tally
  cache : Cache
deriving DecidableEq, Repr

/-- Lines 381-388: the tail of one processed submodule change — resolve the
remote URL and release tag, collect the submodule's contributors, and record
the release link. -/
def relFinish (env : RelEnv) (st : RelState) (directory library_name commit_range : String)
    (added updated : List String) : Except Exc RelState := do
  let repo_url := repo_remote_url env.remoteUrl directory
  let new_commit := (pySplitDot commit_range).getLastD ""
  let release_tag ← liftGit (commit_to_tag env.describeTag directory new_commit)
  let (submodule_contributors, cache, _msgs) ←
    get_contributors (env.gitLog directory) (env.ghCommit (repo_name repo_url))
      (repo_name repo_url) commit_range st.cache
  .ok { st with
    added_submodules := added
    updated_submodules := updated
    contributors := add_contributors st.contributors submodule_contributors
    repo_links := dictSet st.repo_links library_name
      (pyDropRight repo_url 4 ++ "/releases/" ++ release_tag)
    cache := cache }

/-- One iteration of the diff-scan loop (lines 358-388): track the current
`diff`/`index` header lines; on a `+Subproject` line classify the recorded
commit range — leading all-zero sentinel = added, trailing all-zero
sentinel = removed (skipped), otherwise updated — and process the change. -/
def relStep (env : RelEnv) (st : RelState) (line : String) : Except Exc RelState :=
  if pyStartswith line "diff" then
    .ok { st with current_submodule := some (pyDropLeft ((pySplitWs line).getLastD "") 2) }
  else if pyContains "index" line then
    .ok { st with current_index := some line }
  else if pyStartswith line "+Subproject" = false then
    .ok st
  else
    match st.current_submodule, st.current_index with
    | some directory, some idx =>
      match (pySplitWs idx)[1]? with
      | none => .error (.valueError "list index out of range")
      | some commit_range =>
        let library_name := (pySplitSlash directory).getLastD ""
        if pyStartswith commit_range "0000000" then
          relFinish env st directory library_name ((pySplitDot commit_range).getLastD "")
            (st.added_submodules ++ [library_name]) st.updated_submodules
        else if pyEndswith commit_range "0000000" then
          -- For now, skip documenting deleted modules.
          .ok st
        else
          relFinish env st directory library_name commit_range
            st.added_submodules (st.updated_submodules ++ [library_name])
    | _, _ => .error (.valueError "NoneType")

/-- `new_release(bundle, bundle_path)`: collect the bundle-level
contributors since the last release, return without a release when the diff
since the last tag is empty, otherwise scan the diff, compose the release
description and payload, and post it (the returned `some release` is the
posted payload). -/
def new_release (env : RelEnv) (bundle : String) (cache : Cache) :
    Except Exc (Option Release × Cache) := do
  let last_tag := env.latestTag
  let (contributors, cache, _msgs) ←
    get_contributors (env.gitLog ".") (env.ghCommit ("adafruit/" ++ bundle))
      ("adafruit/" ++ bundle) (last_tag ++ "..") cache
  let output := pyStrip env.diffShort
  if output = "" then
    -- "Everything is already released."
    .ok (none, cache)
  else do
    let st ← (pySplitNl output).foldlM (relStep env)
      (⟨none, none, [], [], [], contributors, cache⟩ : RelState)
    let release_description₀ : List String :=
      if st.added_submodules ≠ [] then
        ["New libraries: " ++ pyJoin ", " (st.added_submodules.map (fun library =>
          "[" ++ library ++ "](" ++ (dictGet st.repo_links library).getD "" ++ ")"))]
      else []
    let release_description₁ :=
      if st.updated_submodules ≠ [] then
        release_description₀ ++ ["Updated libraries: " ++ pyJoin ", "
          (st.updated_submodules.map (fun library =>
            "[" ++ library ++ "](" ++ (dictGet st.repo_links library).getD "" ++ ")"))]
      else release_description₀
    let contributors_sorted := pySorted
      (fun x y => decide ((dictGet st.contributors y).getD 0 ≤ (dictGet st.contributors x).getD 0))
      (st.contributors.map Prod.fst)
    let mentions := contributors_sorted.map (fun x => "@" ++ x)
    let release_description := release_description₁ ++ [""] ++
      ["As always, thank you to all of our contributors: " ++ pyJoin ", " mentions,
       "\n--------------------------\n",
       "The libraries in each release are compiled for all recent major versions of CircuitPython."
         ++ " Please download the one that matches the major version of your CircuitPython. For example"
         ++ ", if you are running 6.0.0 you should download the `6.x` bundle.\n",
       "To install, simply download the matching zip file, unzip it, and selectively copy the"
         ++ " libraries you would like to install into the lib folder on your CIRCUITPY drive. This is"
         ++ " especially important for non-express boards with limited flash, such as the"
         ++ " [Trinket M0](https://www.adafruit.com/product/3500),"
         ++ " [Gemma M0](https://www.adafruit.com/product/3501) and"
         ++ " [Feather M0 Basic](https://www.adafruit.com/product/2772)."]
    let release : Release :=
      { tag_name := env.todayTag
        target_commitish := env.headSha
        name := env.todayName
        body := pyJoin "\n" release_description
        draft := false
        prerelease := false }
    .ok (some release, st.cache)

/-- A release environment in which everything is already released: empty
diff, no tags, no commits. -/
def stubRelEnv : RelEnv where
  latestTag := "20240101"
  diffShort := ""
  remoteUrl := fun _ => ""
  describeTag := fun _ _ => .error .code128
  gitLog := fun _ _ => .error .code128
  ghCommit := fun _ _ => ⟨none, none⟩
  todayTag := "20240102"
  todayName := "January 02, 2024 auto-release"
  headSha := "deadbeef"

/-- Claim C4: `commit_to_tag` returns the exact tag (the stripped `describe`
output) when the lookup succeeds, returns the raw commit unchanged when the
lookup exits with the not-found status 128, propagates every other failure,
and — being a pure function of the oracle — resolves the same commit to the
same reference both times it is asked. -/
theorem commit_to_tag_spec (describe : String → String → Except GitErr String)
    (repo_path commit : String) :
    (∀ output, describe repo_path commit = .ok output →
      commit_to_tag describe repo_path commit = .ok (pyStrip output)) ∧
    (describe repo_path commit = .error .code128 →
      commit_to_tag describe repo_path commit = .ok commit) ∧
    (∀ msg, describe repo_path commit = .error (.other msg) →
      commit_to_tag describe repo_path commit = .error (.other msg)) ∧
    commit_to_tag describe repo_path commit = commit_to_tag describe repo_path commit := by
  refine ⟨?_, ?_, ?_, rfl⟩
  · intro output h
    simp [commit_to_tag, h]
  · intro h
    simp [commit_to_tag, h]
  · intro msg h
    simp [commit_to_tag, h]

/-- Witness for C4: a concrete oracle under which each hypothesis of
`commit_to_tag_spec` is discharged at a concrete input. -/
theorem commit_to_tag_spec_witness :
    commit_to_tag (fun _ _ => .error .code128) "libraries/drivers/foo" "abc123" = .ok "abc123" :=
  (commit_to_tag_spec (fun _ _ => .error .code128) "libraries/drivers/foo" "abc123").2.1 rfl

/-- If some status line makes `processStatusLine` raise, the whole
`update_bundle` run ends in an error (no update records survive). -/
theorem update_bundle_foldlM_error (env : GitEnv) :
    ∀ (lines : List String) (acc : List UpdateRec) (l : String) (e₀ : Exc),
      l ∈ lines → processStatusLine env l = .error e₀ →
      ∃ e, (lines.foldlM
        (fun acc line => do
          match ← processStatusLine env line with
          | some u => pure (acc ++ [u])
          | none => pure acc)
        acc : Except Exc (List UpdateRec)) = .error e := by
  intro lines
  induction lines with
  | nil => intro acc l e₀ h; simp at h
  | cons hd tl ih =>
    intro acc l e₀ hmem herr
    rcases List.mem_cons.mp hmem with heq | htl
    · subst heq
      exact ⟨e₀, by simp only [List.foldlM_cons, herr]; rfl⟩
    · cases hhd : processStatusLine env hd with
      | error e => exact ⟨e, by simp only [List.foldlM_cons, hhd]; rfl⟩
      | ok o =>
        cases o with
        | none =>
          obtain ⟨e, he⟩ := ih acc l e₀ htl herr
          exact ⟨e, by simp [List.foldlM_cons, hhd]; exact he⟩
        | some u =>
          obtain ⟨e, he⟩ := ih (acc ++ [u]) l e₀ htl herr
          exact ⟨e, by simp [List.foldlM_cons, hhd]; exact he⟩

/-- Claim C2: after skipping the library-list document's own status line, a
status report line whose action is not `M` or whose path does not start with
the libraries root makes `update_bundle` raise
`RuntimeError("Unsupported updates")` at that line, and the whole bundle run
ends in an error, producing zero change records. -/
theorem update_bundle_unsupported (env : GitEnv)
    (status line action directory : String) (lib_list_updates : List String)
    (hmem : line ∈ pySplitNl (pyStrip status))
    (hsplit : pySplitWs line = [action, directory])
    (hmd : pyEndswith directory "library_list.md" = false)
    (hbad : action ≠ "M" ∨ pyStartswith directory "libraries" = false) :
    processStatusLine env line = .error (.runtimeError "Unsupported updates") ∧
    ∃ e, update_bundle env status lib_list_updates = .error e := by
  have hline : processStatusLine env line = .error (.runtimeError "Unsupported updates") := by
    simp only [processStatusLine, hsplit]
    rw [if_neg (by simp [hmd]), if_pos hbad]
  refine ⟨hline, ?_⟩
  by_cases hs : pyStrip status = ""
  · exfalso
    rw [hs] at hmem
    have hempty : pySplitNl "" = [""] := by decide
    rw [hempty] at hmem
    have : line = "" := by simpa using hmem
    rw [this] at hsplit
    have : pySplitWs "" = [] := by decide
    rw [this] at hsplit
    exact absurd hsplit (by simp)
  · obtain ⟨e, he⟩ :=
      update_bundle_foldlM_error env (pySplitNl (pyStrip status)) [] line _ hmem hline
    refine ⟨e, ?_⟩
    simp only [update_bundle, if_neg hs, he]
    rfl

/-- Witness for C2: a deletion line `D deleted_file` raises and the run of
`update_bundle` for that bundle yields an error instead of records. -/
theorem update_bundle_unsupported_witness :
    processStatusLine stubGitEnv "D deleted_file" = .error (.runtimeError "Unsupported updates") ∧
    ∃ e, update_bundle stubGitEnv "D deleted_file" [] = .error e :=
  update_bundle_unsupported stubGitEnv "D deleted_file" "D deleted_file" "D" "deleted_file" []
    (by decide) (by decide) (by decide) (Or.inl (by decide))

/-- Claim C3: an accepted `M libraries/...` status line is scanned into
exactly one update record: the third whitespace token of the diff summary's
first line, stripped of colons, is split on `.`; the first and last tokens
are resolved through `commit_to_tag` and become the old/new references; the
summary is the diff's lines minus the first (header) and last (footer); the
record's URL is the remote URL minus its `.git` suffix. -/
theorem update_bundle_scan_record (env : GitEnv)
    (status_raw status_line action directory range_tok old_commit new_commit : String)
    (hsplit : pySplitWs status_line = [action, directory])
    (hmd : pyEndswith directory "library_list.md" = false)
    (hact : action = "M")
    (hlib : pyStartswith directory "libraries" = true)
    (htok : (pySplitWs ((pySplitNl (env.diffSubmoduleLog directory)).headD ""))[2]? = some range_tok)
    (hold : commit_to_tag env.describeTag directory
      ((pySplitDot (pyStripColon range_tok)).headD "") = .ok old_commit)
    (hnew : commit_to_tag env.describeTag directory
      ((pySplitDot (pyStripColon range_tok)).getLastD "") = .ok new_commit)
    (hone : pySplitNl (pyStrip status_raw) = [status_line]) :
    processStatusLine env status_line =
      .ok (some (pyDropRight (repo_remote_url env.remoteUrl directory) 4, old_commit, new_commit,
        pyJoin "\n" (((pySplitNl (env.diffSubmoduleLog directory)).drop 1).dropLast))) ∧
    update_bundle env status_raw [] =
      .ok [(pyDropRight (repo_remote_url env.remoteUrl directory) 4, old_commit, new_commit,
        pyJoin "\n" (((pySplitNl (env.diffSubmoduleLog directory)).drop 1).dropLast))] := by
  have hproc : processStatusLine env status_line =
      .ok (some (pyDropRight (repo_remote_url env.remoteUrl directory) 4, old_commit, new_commit,
        pyJoin "\n" (((pySplitNl (env.diffSubmoduleLog directory)).drop 1).dropLast))) := by
    simp only [processStatusLine, hsplit]
    rw [if_neg (by simp [hmd]), if_neg (by simp [hact, hlib])]
    simp only [htok, liftGit, hold, hnew]
    rfl
  refine ⟨hproc, ?_⟩
  have hs : pyStrip status_raw ≠ "" := by
    intro hs
    rw [hs] at hone
    have hempty : pySplitNl "" = [""] := by decide
    rw [hempty] at hone
    have : status_line = "" := by simpa using hone.symm
    rw [this] at hsplit
    have : pySplitWs "" = [] := by decide
    rw [this] at hsplit
    exact absurd hsplit (by simp)
  simp only [update_bundle, if_neg hs, hone, List.foldlM_cons, hproc, List.foldlM_nil]
  rfl

/-- Witness for C3: the line `M libraries/drivers/foo` with diff summary
`abc123..def456` / `  > bumped version` yields exactly the record
(url, abc123, def456, "  > bumped version"). -/
theorem update_bundle_scan_record_witness :
    processStatusLine fooGitEnv "M libraries/drivers/foo" =
      .ok (some ("https://github.com/adafruit/foo", "abc123", "def456", "  > bumped version")) ∧
    update_bundle fooGitEnv "M libraries/drivers/foo" [] =
      .ok [("https://github.com/adafruit/foo", "abc123", "def456", "  > bumped version")] := by
  have h := update_bundle_scan_record fooGitEnv "M libraries/drivers/foo" "M libraries/drivers/foo"
    "M" "libraries/drivers/foo" "abc123..def456:" "abc123" "def456"
    (by decide) (by decide) rfl (by decide) (by decide) (by decide) (by decide) (by decide)
  exact h

/-- Counterexample to C1 as stated: a fatal error raised while fetching the
first bundle that is not a `RuntimeError` (here an `sh`-level git failure)
is not caught by the top-level `except RuntimeError` clause: the whole run
aborts with that error and the second bundle is never processed, so not
every per-bundle fatal error is caught and logged. -/
theorem mainLoop_not_all_caught :
    mainLoop (fun _ => .error (.gitError "clone failed"))
        (fun _ => .ok []) (fun _ _ => .ok ()) (fun _ => .ok ())
      = .error (.gitError "clone failed") := by
  decide

/-- Claim C1 (amended): when every per-bundle failure is a `RuntimeError`,
the top-level handler catches it, logs it together with the bundle's name,
and processing continues with the next bundle, so the run never aborts
globally. -/
theorem processBundles_runtime_caught (step : String → Except Exc Unit) :
    ∀ bundles : List String,
      (∀ b ∈ bundles, ∀ e, step b = .error e → ∃ m, e = .runtimeError m) →
      ∃ logs, processBundles step bundles = .ok logs ∧
        ∀ b m, b ∈ bundles → step b = .error (.runtimeError m) → (b, m) ∈ logs := by
  intro bundles
  induction bundles with
  | nil => intro _; exact ⟨[], rfl, by simp⟩
  | cons hd tl ih =>
    intro h
    obtain ⟨logs, hlogs, hmem⟩ := ih (fun b hb e he => h b (List.mem_cons_of_mem hd hb) e he)
    cases hstep : step hd with
    | ok u =>
      refine ⟨logs, ?_, ?_⟩
      · simp [processBundles, hstep, hlogs]
      · intro b m hb hbe
        rcases List.mem_cons.mp hb with rfl | hb
        · rw [hstep] at hbe; cases hbe
        · exact hmem b m hb hbe
    | error e =>
      obtain ⟨m, rfl⟩ := h hd (List.mem_cons_self hd tl) e hstep
      refine ⟨(hd, m) :: logs, ?_, ?_⟩
      · simp [processBundles, hstep, hlogs]
      · intro b m' hb hbe
        rcases List.mem_cons.mp hb with rfl | hb
        · rw [hstep] at hbe
          cases hbe
          exact List.mem_cons_self _ _
        · exact List.mem_cons_of_mem _ (hmem b m' hb hbe)

/-- Witness for the amended C1: a concrete run in which updating the first
bundle raises `RuntimeError("Unsupported updates")`; the run completes,
the failure is logged with the bundle's name, and the other bundle is
still processed. -/
theorem processBundles_runtime_caught_witness :
    ∃ logs, processBundles
        (bundleStep (fun _ => .ok ())
          (fun b => if b = "Adafruit_CircuitPython_Bundle" then
              .error (.runtimeError "Unsupported updates") else .ok [])
          (fun _ _ => .ok ()) (fun _ => .ok ()))
        BUNDLES = .ok logs ∧
      ∀ b m, b ∈ BUNDLES →
        (bundleStep (fun _ => .ok ())
          (fun b => if b = "Adafruit_CircuitPython_Bundle" then
              .error (.runtimeError "Unsupported updates") else .ok [])
          (fun _ _ => .ok ()) (fun _ => .ok ())) b = .error (.runtimeError m) → (b, m) ∈ logs :=
  processBundles_runtime_caught _ BUNDLES (by
    intro b hb e he
    rcases List.mem_cons.mp hb with rfl | hb
    · have he2 : Except.error (ε := Exc) (α := Unit) (.runtimeError "Unsupported updates")
          = Except.error e := he
      exact ⟨"Unsupported updates", (Except.error.inj he2).symm⟩
    · rcases List.mem_cons.mp hb with rfl | hb
      · exact Except.noConfusion (he : Except.ok () = Except.error e)
      · cases hb)

/-! ### Association-list lemmas -/

theorem dictGet_append_single {α : Type} (d : List (String × α)) (k k' : String) (v : α) :
    dictGet (d ++ [(k, v)]) k' =
      match dictGet d k' with
      | some x => some x
      | none => if k' = k then some v else none := by
  induction d with
  | nil =>
    by_cases h : k = k'
    · subst h; simp [dictGet]
    · have h' : ¬ k' = k := fun hh => h hh.symm
      simp [dictGet, h, h']
  | cons hd tl ih =>
    obtain ⟨k₀, v₀⟩ := hd
    by_cases h : k₀ = k'
    · subst h; simp [dictGet]
    · simp [dictGet, h, ih]

theorem dictGet_dictAdd (d : Tally) (k k' : String) (n : Nat) :
    dictGet (dictAdd d k n) k' =
      if k' = k then (dictGet d k).map (· + n) else dictGet d k' := by
  induction d with
  | nil =>
    show (none : Option Nat) = if k' = k then Option.map (· + n) none else none
    split <;> rfl
  | cons hd tl ih =>
    obtain ⟨k₀, v₀⟩ := hd
    by_cases h : k₀ = k
    · subst h
      by_cases h' : k₀ = k'
      · subst h'
        simp [dictAdd, dictGet]
      · have h'' : ¬ k' = k₀ := fun hh => h' hh.symm
        simp [dictAdd, dictGet, h', h'']
    · by_cases h' : k₀ = k'
      · subst h'
        have h'' : ¬ k₀ = k := h
        simp [dictAdd, dictGet, h'']
      · have h'' : ¬ k' = k₀ := fun hh => h' hh.symm
        simp [dictAdd, dictGet, h, h', ih]

theorem dictGet_eq_some_mem {α : Type} (d : List (String × α)) (k : String) (v : α)
    (h : dictGet d k = some v) : (k, v) ∈ d := by
  induction d with
  | nil => simp [dictGet] at h
  | cons hd tl ih =>
    obtain ⟨k₀, v₀⟩ := hd
    by_cases hk : k₀ = k
    · subst hk
      simp [dictGet] at h
      simp [h]
    · simp [dictGet, hk] at h
      exact List.mem_cons_of_mem _ (ih h)

theorem dictContains_false {α : Type} (d : List (String × α)) (k : String) :
    dictContains d k = false ↔ dictGet d k = none := by
  cases h : dictGet d k <;> simp [dictContains, h]

theorem dictGet_insertZero (d : Tally) (x : Option String) (k : String) :
    dictGet (insertZero d x) k =
      if x = some k ∧ k ≠ "" ∧ dictGet d k = none then some 0 else dictGet d k := by
  cases x with
  | none => simp [insertZero]
  | some a =>
    simp only [insertZero]
    by_cases ha : a ≠ "" ∧ dictContains d a = false
    · rw [if_pos ha]
      rw [dictGet_append_single]
      by_cases hk : a = k
      · subst hk
        have : dictGet d a = none := (dictContains_false d a).mp ha.2
        simp [this, ha.1]
      · have h' : ¬ k = a := fun hh => hk hh.symm
        cases hd : dictGet d k with
        | some v => simp [hd, hk]
        | none => simp [hd, h', hk]
    · rw [if_neg ha]
      rw [if_neg]
      rintro ⟨heq, hk, hnone⟩
      cases heq
      exact ha ⟨hk, (dictContains_false d k).mpr hnone⟩

theorem some_getD_of_ne_none (d : Nat) {x : Option Nat} (h : ¬ x = none) :
    some (x.getD d) = x := by
  cases x with
  | none => exact absurd rfl h
  | some v => rfl

/-- `insertZero` with a `None` argument does nothing. -/
theorem insertZero_none (d : Tally) : insertZero d none = d := rfl

set_option maxHeartbeats 4000000 in
/-- Pointwise effect of `creditCommit` on the tally: the author's key (when
truthy) gains exactly 1; the committer's key gains exactly 1 when truthy,
distinct from the author and not dropped by the noreply rule; all other
keys are untouched.  Absent keys enter at `0 + 1`. -/
theorem creditCommit_lookup (t : Tally) (author committer co : Option String) (ce k : String)
    (hco : co = if ce = "noreply@github.com" then none else committer) :
    dictGet (creditCommit t author committer ce) k =
      if author = some k ∧ k ≠ "" then some ((dictGet t k).getD 0 + 1)
      else if co = some k ∧ k ≠ "" ∧ co ≠ author then some ((dictGet t k).getD 0 + 1)
      else dictGet t k := by
  unfold creditCommit
  rw [← hco]
  clear hco
  cases author <;> cases co <;>
    simp only [insertZero_none, apply_ite (fun d : Tally => dictGet d k),
      dictGet_insertZero, dictGet_dictAdd]
  all_goals
    rcases (dictGet t k).eq_none_or_eq_some with hdt | ⟨v, hdt⟩ <;>
      simp only [hdt, Option.getD_none, Option.getD_some] <;>
      (try split_ifs)
  all_goals
    first
      | rfl
      | (simp_all; done)
      | (simp_all [eq_comm]; done)
      | (simp_all [dictGet_insertZero, dictGet_dictAdd, eq_comm]; done)

theorem dictAdd_map_fst (d : Tally) (k : String) (n : Nat) :
    (dictAdd d k n).map Prod.fst = d.map Prod.fst := by
  induction d with
  | nil => rfl
  | cons hd tl ih =>
    obtain ⟨k₀, v₀⟩ := hd
    by_cases h : k₀ = k <;> simp [dictAdd, h, ih]

theorem dictGet_none_not_mem {α : Type} (d : List (String × α)) (k : String)
    (h : dictGet d k = none) : k ∉ d.map Prod.fst := by
  induction d with
  | nil => simp
  | cons hd tl ih =>
    obtain ⟨k₀, v₀⟩ := hd
    by_cases hk : k₀ = k
    · simp [dictGet, hk] at h
    · simp [dictGet, hk] at h
      simp [hk, ih h]
      exact fun hh => hk hh.symm

theorem keysNodup_insertZero (d : Tally) (x : Option String) (h : keysNodup d) :
    keysNodup (insertZero d x) := by
  cases x with
  | none => exact h
  | some a =>
    simp only [insertZero]
    split_ifs with ha
    · have hnone : dictGet d a = none := (dictContains_false d a).mp ha.2
      have hnm := dictGet_none_not_mem d a hnone
      unfold keysNodup at h ⊢
      rw [List.map_append, List.nodup_append]
      refine ⟨h, by simp, ?_⟩
      intro x hx hxa
      simp only [List.map_cons, List.map_nil, List.mem_singleton] at hxa
      subst hxa
      exact hnm hx
    · exact h

theorem keysNodup_dictAdd (d : Tally) (k : String) (n : Nat) (h : keysNodup d) :
    keysNodup (dictAdd d k n) := by
  unfold keysNodup
  rw [dictAdd_map_fst]
  exact h

theorem keysNodup_authorStep (t2 : Tally) (author : Option String) (h : keysNodup t2) :
    keysNodup (match author with
      | some a => if a ≠ "" then dictAdd t2 a 1 else t2
      | none => t2) := by
  cases author with
  | none => exact h
  | some a =>
    show keysNodup (if a ≠ "" then dictAdd t2 a 1 else t2)
    split_ifs
    · exact keysNodup_dictAdd _ a 1 h
    · exact h

theorem keysNodup_committerStep (t3 : Tally) (author co : Option String) (h : keysNodup t3) :
    keysNodup (match co with
      | some c => if c ≠ "" ∧ some c ≠ author then dictAdd t3 c 1 else t3
      | none => t3) := by
  cases co with
  | none => exact h
  | some c =>
    show keysNodup (if c ≠ "" ∧ some c ≠ author then dictAdd t3 c 1 else t3)
    split_ifs
    · exact keysNodup_dictAdd _ c 1 h
    · exact h

theorem keysNodup_creditCommit (t : Tally) (author committer : Option String) (ce : String)
    (h : keysNodup t) : keysNodup (creditCommit t author committer ce) := by
  have hstep := keysNodup_authorStep
    (insertZero (insertZero t author) (if ce = "noreply@github.com" then none else committer))
    author
    (keysNodup_insertZero _ _ (keysNodup_insertZero t author h))
  exact keysNodup_committerStep _ author _ hstep

theorem dictGet_of_mem_nodup {α : Type} (d : List (String × α)) (p : String × α)
    (hnd : keysNodup d) (hmem : p ∈ d) : dictGet d p.1 = some p.2 := by
  induction d with
  | nil => simp at hmem
  | cons hd tl ih =>
    obtain ⟨k₀, v₀⟩ := hd
    rcases List.mem_cons.mp hmem with rfl | htl
    · simp [dictGet]
    · have hk : k₀ ≠ p.1 := by
        intro hh
        have : p.1 ∈ tl.map Prod.fst := List.mem_map_of_mem Prod.fst htl
        rw [← hh] at this
        exact (List.nodup_cons.mp hnd).1 this
      have hnd' : keysNodup tl := (List.nodup_cons.mp hnd).2
      simp [dictGet, hk, ih hnd' htl]

theorem allPos_creditCommit (t : Tally) (author committer : Option String) (ce : String)
    (hnd : keysNodup t) (hp : allPos t) :
    allPos (creditCommit t author committer ce) := by
  intro p hmem
  have hnd' := keysNodup_creditCommit t author committer ce hnd
  have hlook := dictGet_of_mem_nodup _ p hnd' hmem
  rw [creditCommit_lookup t author committer _ ce p.1 rfl] at hlook
  split_ifs at hlook <;>
    first
      | (injection hlook with hv; omega)
      | exact hp (p.1, p.2) (dictGet_eq_some_mem t p.1 p.2 hlook)

theorem get_contributors_fold_invariant (gh : String → GhInfo) :
    ∀ (lines : List String) (acc res : Tally × Cache),
      allPos acc.1 → keysNodup acc.1 →
      (lines.foldlM
        (fun (acc : Tally × Cache) log_line => do
          let (sha, author_email, committer_email) ← parseLogLine log_line
          let (author, committer, cache) := resolveIds acc.2 gh sha author_email committer_email
          pure (creditCommit acc.1 author committer committer_email, cache))
        acc : Except Exc (Tally × Cache)) = .ok res →
      allPos res.1 ∧ keysNodup res.1 := by
  intro lines
  induction lines with
  | nil =>
    intro acc res hp hnd h
    rw [List.foldlM_nil] at h
    cases h
    exact ⟨hp, hnd⟩
  | cons hd tl ih =>
    intro acc res hp hnd h
    rw [List.foldlM_cons] at h
    cases hparse : parseLogLine hd with
    | error e =>
      rw [hparse] at h
      exact absurd h (by simp [Bind.bind, Except.bind])
    | ok trip =>
      obtain ⟨sha, author_email, committer_email⟩ := trip
      rw [hparse] at h
      have h' : (tl.foldlM
          (fun (acc : Tally × Cache) log_line => do
            let (sha, author_email, committer_email) ← parseLogLine log_line
            let (author, committer, cache) := resolveIds acc.2 gh sha author_email committer_email
            pure (creditCommit acc.1 author committer committer_email, cache))
          ((creditCommit acc.1 (resolveIds acc.2 gh sha author_email committer_email).1
              (resolveIds acc.2 gh sha author_email committer_email).2.1 committer_email),
            (resolveIds acc.2 gh sha author_email committer_email).2.2)
          : Except Exc (Tally × Cache)) = .ok res := h
      exact ih _ res
        (allPos_creditCommit _ _ _ _ hnd hp)
        (keysNodup_creditCommit _ _ _ _ hnd)
        h'

/-- Claim C5: per commit, a resolved (truthy) author gains exactly 1; the
committer gains exactly 1 exactly when resolved, distinct from the author,
and the committer email is not the sentinel `noreply@github.com`; under the
sentinel (or an unresolved author) no other key moves; and since new
contributors enter the dict at 0 immediately before their first increment,
every contributor in a tally returned by `get_contributors` has positive
weight. -/
theorem get_contributors_weighting :
    (∀ (t : Tally) (author committer : Option String) (committer_email a : String),
       author = some a → a ≠ "" →
       dictGet (creditCommit t author committer committer_email) a =
         some ((dictGet t a).getD 0 + 1)) ∧
    (∀ (t : Tally) (author committer : Option String) (committer_email c : String),
       committer = some c → c ≠ "" → committer_email ≠ "noreply@github.com" →
       author ≠ some c →
       dictGet (creditCommit t author committer committer_email) c =
         some ((dictGet t c).getD 0 + 1)) ∧
    (∀ (t : Tally) (author committer : Option String) (k : String),
       author ≠ some k →
       dictGet (creditCommit t author committer "noreply@github.com") k = dictGet t k) ∧
    (∀ (log : String → Except GitErr String) (gh : String → GhInfo)
       (repo commit_range : String) (cache κ : Cache) (t : Tally) (msgs : List String),
       get_contributors log gh repo commit_range cache = .ok (t, κ, msgs) →
       ∀ p ∈ t, 0 < p.2) := by
  refine ⟨?_, ?_, ?_, ?_⟩
  · intro t author committer committer_email a hau ha
    rw [creditCommit_lookup t author committer _ committer_email a rfl,
      if_pos (And.intro hau ha)]
  · intro t author committer committer_email c hco hc hce hau
    rw [creditCommit_lookup t author committer _ committer_email c rfl]
    have hcer : (if committer_email = "noreply@github.com" then (none : Option String)
        else committer) = committer := if_neg hce
    rw [hcer, hco]
    rw [if_neg (by rintro ⟨h1, _⟩; exact hau h1)]
    rw [if_pos ⟨rfl, hc, fun hh => hau hh.symm⟩]
  · intro t author committer k hau
    rw [creditCommit_lookup t author committer _ "noreply@github.com" k rfl]
    rw [if_neg (by rintro ⟨h1, _⟩; exact hau h1), if_neg (by simp)]
  · intro log gh repo commit_range cache κ t msgs h
    unfold get_contributors at h
    cases hlog : log commit_range with
    | error e =>
      cases e with
      | code128 =>
        rw [hlog] at h
        have h' : (Except.ok ([], cache, ["Skipping contributors for: " ++ repo])
            : Except Exc (Tally × Cache × List String)) = .ok (t, κ, msgs) := h
        injection h' with h1
        injection h1 with h2
        subst h2
        intro p hp
        simp at hp
      | other m =>
        rw [hlog] at h
        have h' : (Except.error (Exc.gitError m)
            : Except Exc (Tally × Cache × List String)) = .ok (t, κ, msgs) := h
        cases h'
    | ok out =>
      rw [hlog] at h
      have h' : (if pyStrip out = "" then (Except.ok ([], cache, [])
            : Except Exc (Tally × Cache × List String))
          else (do
            let (contributors, cache) ←
              (pySplitNl (pyStrip out)).foldlM
                (fun (acc : Tally × Cache) log_line => do
                  let (sha, author_email, committer_email) ← parseLogLine log_line
                  let (author, committer, cache) :=
                    resolveIds acc.2 gh sha author_email committer_email
                  pure (creditCommit acc.1 author committer committer_email, cache))
                ([], cache)
            Except.ok (contributors, cache, []))) = .ok (t, κ, msgs) := h
      by_cases hempty : pyStrip out = ""
      · rw [if_pos hempty] at h'
        injection h' with h1
        injection h1 with h2
        subst h2
        intro p hp
        simp at hp
      · rw [if_neg hempty] at h'
        cases hfold : ((pySplitNl (pyStrip out)).foldlM
            (fun (acc : Tally × Cache) log_line => do
              let (sha, author_email, committer_email) ← parseLogLine log_line
              let (author, committer, cache) :=
                resolveIds acc.2 gh sha author_email committer_email
              pure (creditCommit acc.1 author committer committer_email, cache))
            ([], cache) : Except Exc (Tally × Cache)) with
        | error e =>
          rw [hfold] at h'
          exact absurd h' (by simp [Bind.bind, Except.bind])
        | ok resf =>
          rw [hfold] at h'
          obtain ⟨tf, κf⟩ := resf
          have heq : t = tf := by
            have h'' : (Except.ok (tf, κf, ([] : List String))
                : Except Exc (Tally × Cache × List String)) = .ok (t, κ, msgs) := h'
            injection h'' with h1
            injection h1 with h2
            exact h2.symm
          subst heq
          have hinv := get_contributors_fold_invariant gh (pySplitNl (pyStrip out))
            ([], cache) (t, κf) (by intro p hp; simp at hp) (by simp [keysNodup]) hfold
          exact hinv.1

/-- Witness for C5: crediting one concrete commit gives the author weight 1;
a distinct committer weight 1; under the noreply sentinel the committer's key
is untouched; and a concrete `get_contributors` run returns only positive
weights. -/
theorem get_contributors_weighting_witness :
    dictGet (creditCommit [] (some "alice") (some "bob") "c@x.com") "alice" = some 1 ∧
    dictGet (creditCommit [] (some "alice") (some "bob") "c@x.com") "bob" = some 1 ∧
    dictGet (creditCommit [("alice", 3)] (some "alice") (some "bob") "noreply@github.com") "bob"
      = dictGet [("alice", 3)] "bob" ∧
    (∀ p ∈ [("alice", 1), ("bob", 1)], 0 < p.2) := by
  obtain ⟨h1, h2, h3, h4⟩ := get_contributors_weighting
  refine ⟨?_, ?_, ?_, ?_⟩
  · exact h1 [] (some "alice") (some "bob") "c@x.com" "alice" rfl (by decide)
  · exact h2 [] (some "alice") (some "bob") "c@x.com" "bob" rfl (by decide) (by decide) (by decide)
  · exact h3 [("alice", 3)] (some "alice") (some "bob") "bob" (by decide)
  · exact h4 (fun _ => .ok "sha1,a@x.com,c@x.com") (fun _ => ⟨some "alice", some "bob"⟩)
      "adafruit/Some_Repo" "tag.." []
      [("github_username:a@x.com", "alice"), ("github_username:c@x.com", "bob")]
      [("alice", 1), ("bob", 1)] [] (by decide)

/-- Claim C10: when `git log` for a commit range exits with the not-found
status 128, `get_contributors` reports the skip message and returns an empty
tally instead of raising; when the log succeeds but lists no commits
(whitespace-only output), it likewise returns an empty tally. -/
theorem get_contributors_not_found_empty (log : String → Except GitErr String)
    (gh : String → GhInfo) (repo commit_range : String) (cache : Cache) :
    (log commit_range = .error .code128 →
      get_contributors log gh repo commit_range cache =
        .ok ([], cache, ["Skipping contributors for: " ++ repo])) ∧
    (∀ out, log commit_range = .ok out → pyStrip out = "" →
      get_contributors log gh repo commit_range cache = .ok ([], cache, [])) := by
  constructor
  · intro hlog
    unfold get_contributors
    rw [hlog]
  · intro out hlog hempty
    unfold get_contributors
    rw [hlog]
    show (if pyStrip out = "" then (Except.ok ([], cache, [])
        : Except Exc (Tally × Cache × List String)) else _) = _
    rw [if_pos hempty]

/-- Witness for C10: a concrete 128-exit run and a concrete empty-output run
both yield an empty tally with no error. -/
theorem get_contributors_not_found_empty_witness :
    get_contributors (fun _ => .error .code128) (fun _ => ⟨none, none⟩)
      "adafruit/Some_Repo" "tag.." []
      = .ok ([], [], ["Skipping contributors for: adafruit/Some_Repo"]) ∧
    get_contributors (fun _ => .ok "  \n ") (fun _ => ⟨none, none⟩)
      "adafruit/Some_Repo" "tag.." []
      = .ok ([], [], []) := by
  constructor
  · exact (get_contributors_not_found_empty (fun _ => .error .code128) (fun _ => ⟨none, none⟩)
      "adafruit/Some_Repo" "tag.." []).1 rfl
  · exact (get_contributors_not_found_empty (fun _ => .ok "  \n ") (fun _ => ⟨none, none⟩)
      "adafruit/Some_Repo" "tag.." []).2 "  \n " rfl (by decide)

theorem dictGet_none_iff {α : Type} (d : List (String × α)) (k : String) :
    dictGet d k = none ↔ k ∉ d.map Prod.fst := by
  induction d with
  | nil => simp [dictGet]
  | cons hd tl ih =>
    obtain ⟨k₀, v₀⟩ := hd
    by_cases hk : k₀ = k
    · subst hk
      simp [dictGet]
    · have hk' : ¬ k = k₀ := fun hh => hk hh.symm
      simp [dictGet, hk, hk', ih]

theorem addStep_lookup (m : Tally) (c k : String) (w : Nat) :
    dictGet (dictAdd (if dictContains m c = false then m ++ [(c, 0)] else m) c w) k =
      if k = c then some ((dictGet m c).getD 0 + w) else dictGet m k := by
  by_cases hc : dictContains m c = false
  · rw [if_pos hc]
    have hnone := (dictContains_false m c).mp hc
    rw [dictGet_dictAdd]
    by_cases hk : k = c
    · subst hk
      rw [if_pos rfl, if_pos rfl, dictGet_append_single]
      simp [hnone]
    · rw [if_neg hk, if_neg hk, dictGet_append_single]
      cases hmk : dictGet m k with
      | some v => simp
      | none => simp [hk]
  · rw [if_neg hc]
    rw [dictGet_dictAdd]
    by_cases hk : k = c
    · subst hk
      rw [if_pos rfl, if_pos rfl]
      have hct : dictContains m k = true := by
        cases hcb : dictContains m k with
        | false => exact absurd hcb hc
        | true => rfl
      obtain ⟨v, hv⟩ := Option.isSome_iff_exists.mp hct
      rw [hv]
      simp
    · rw [if_neg hk, if_neg hk]

theorem addFold_lookup (a : Tally) :
    ∀ (ks : List String) (m : Tally) (k : String), ks.Nodup →
      dictGet (ks.foldl (fun master contributor =>
          dictAdd (if dictContains master contributor = false then master ++ [(contributor, 0)]
            else master) contributor ((dictGet a contributor).getD 0)) m) k =
        if k ∈ ks then some ((dictGet m k).getD 0 + (dictGet a k).getD 0) else dictGet m k := by
  intro ks
  induction ks with
  | nil => intro m k _; simp
  | cons c ks' ih =>
    intro m k hnd
    rw [List.foldl_cons]
    rw [ih _ k (List.nodup_cons.mp hnd).2]
    by_cases hk : k = c
    · subst hk
      have hknotin : k ∉ ks' := (List.nodup_cons.mp hnd).1
      rw [if_neg hknotin, if_pos (List.mem_cons_self k ks')]
      rw [addStep_lookup, if_pos rfl]
    · have hrw := addStep_lookup m c k ((dictGet a c).getD 0)
      rw [if_neg hk] at hrw
      by_cases hk' : k ∈ ks'
      · rw [if_pos hk', if_pos (List.mem_cons_of_mem c hk'), hrw]
      · rw [if_neg hk', hrw, if_neg (by simp [hk, hk'])]

/-- Lookup characterization of one `add_contributors` merge: for dicts with
distinct keys, presence is the union and the weight is the sum. -/
theorem add_contributors_lookup (m a : Tally) (k : String) (hnd : keysNodup a) :
    dictGet (add_contributors m a) k =
      if k ∈ a.map Prod.fst then some ((dictGet m k).getD 0 + (dictGet a k).getD 0)
      else dictGet m k := by
  unfold add_contributors
  exact addFold_lookup a (a.map Prod.fst) m k hnd

theorem keysNodup_addStep (m : Tally) (c : String) (w : Nat) (h : keysNodup m) :
    keysNodup (dictAdd (if dictContains m c = false then m ++ [(c, 0)] else m) c w) := by
  apply keysNodup_dictAdd
  split_ifs with hc
  · have hnone := (dictContains_false m c).mp hc
    have hnm := dictGet_none_not_mem m c hnone
    unfold keysNodup at h ⊢
    rw [List.map_append, List.nodup_append]
    refine ⟨h, by simp, ?_⟩
    intro x hx hxa
    simp only [List.map_cons, List.map_nil, List.mem_singleton] at hxa
    subst hxa
    exact hnm hx
  · exact h

theorem keysNodup_add_contributors (m a : Tally) (h : keysNodup m) :
    keysNodup (add_contributors m a) := by
  unfold add_contributors
  generalize a.map Prod.fst = ks
  induction ks generalizing m with
  | nil => exact h
  | cons c ks' ih => exact ih _ (keysNodup_addStep m c _ h)

theorem add_contributors_contains (m a : Tally) (k : String) (hnd : keysNodup a) :
    dictContains (add_contributors m a) k = (dictContains m k || dictContains a k) := by
  rw [dictContains, add_contributors_lookup m a k hnd]
  by_cases hmem : k ∈ a.map Prod.fst
  · rw [if_pos hmem]
    have hc : dictContains a k = true := by
      rw [dictContains]
      cases hak : dictGet a k with
      | none => exact absurd ((dictGet_none_iff a k).mp hak) (by simpa using hmem)
      | some v => rfl
    simp [hc]
  · rw [if_neg hmem]
    have hak : dictGet a k = none := (dictGet_none_iff a k).mpr hmem
    simp [dictContains, hak]

theorem add_contributors_getD (m a : Tally) (k : String) (hnd : keysNodup a) :
    (dictGet (add_contributors m a) k).getD 0 =
      (dictGet m k).getD 0 + (dictGet a k).getD 0 := by
  rw [add_contributors_lookup m a k hnd]
  by_cases hmem : k ∈ a.map Prod.fst
  · rw [if_pos hmem]
    rfl
  · rw [if_neg hmem]
    have hak : dictGet a k = none := (dictGet_none_iff a k).mpr hmem
    simp [hak]

theorem foldl_add_contributors_lookup :
    ∀ (L : List Tally) (m : Tally) (k : String), (∀ a ∈ L, keysNodup a) →
      dictGet (L.foldl add_contributors m) k =
        if (dictContains m k || L.any fun a => dictContains a k) then
          some ((dictGet m k).getD 0 + (L.map fun a => (dictGet a k).getD 0).sum)
        else none := by
  intro L
  induction L with
  | nil =>
    intro m k _
    simp only [List.foldl_nil, List.any_nil, Bool.or_false, List.map_nil, List.sum_nil]
    cases hmk : dictGet m k with
    | none => simp [dictContains, hmk]
    | some v => simp [dictContains, hmk]
  | cons a L' ih =>
    intro m k hnd
    rw [List.foldl_cons,
      ih (add_contributors m a) k (fun b hb => hnd b (List.mem_cons_of_mem a hb))]
    rw [add_contributors_contains m a k (hnd a (List.mem_cons_self a L'))]
    rw [add_contributors_getD m a k (hnd a (List.mem_cons_self a L'))]
    simp only [List.any_cons, List.map_cons, List.sum_cons]
    rw [Bool.or_assoc, Nat.add_assoc]

/-- Claim C6: folding per-library tallies into a master tally with
`add_contributors` yields the same mapping from contributor to weight for
any processing order (permutation invariance), and the merge is commutative
and associative as a mapping, given the dict invariant of distinct keys. -/
theorem add_contributors_order_independent :
    (∀ (L L' : List Tally) (m : Tally), L.Perm L' → (∀ a ∈ L, keysNodup a) →
      ∀ k, dictGet (L.foldl add_contributors m) k = dictGet (L'.foldl add_contributors m) k) ∧
    (∀ (a b : Tally), keysNodup a → keysNodup b →
      ∀ k, dictGet (add_contributors a b) k = dictGet (add_contributors b a) k) ∧
    (∀ (a b c : Tally), keysNodup b → keysNodup c →
      ∀ k, dictGet (add_contributors (add_contributors a b) c) k
        = dictGet (add_contributors a (add_contributors b c)) k) := by
  refine ⟨?_, ?_, ?_⟩
  · intro L L' m hperm hnd k
    have hnd' : ∀ a ∈ L', keysNodup a := fun a ha => hnd a (hperm.mem_iff.mpr ha)
    rw [foldl_add_contributors_lookup L m k hnd, foldl_add_contributors_lookup L' m k hnd']
    have hany : (L.any fun a => dictContains a k) = (L'.any fun a => dictContains a k) := by
      have hiff : ((L.any fun a => dictContains a k) = true)
          ↔ ((L'.any fun a => dictContains a k) = true) := by
        simp only [List.any_eq_true]
        constructor
        · rintro ⟨x, hx, hfx⟩; exact ⟨x, hperm.mem_iff.mp hx, hfx⟩
        · rintro ⟨x, hx, hfx⟩; exact ⟨x, hperm.mem_iff.mpr hx, hfx⟩
      cases hL : (L.any fun a => dictContains a k) <;>
        cases hL' : (L'.any fun a => dictContains a k) <;> simp_all
    have hsum : ((L.map fun a => (dictGet a k).getD 0).sum)
        = ((L'.map fun a => (dictGet a k).getD 0).sum) :=
      (hperm.map fun a => (dictGet a k).getD 0).sum_eq
    rw [hany, hsum]
  · intro a b hnda hndb k
    rw [add_contributors_lookup a b k hndb, add_contributors_lookup b a k hnda]
    by_cases hbm : k ∈ b.map Prod.fst <;> by_cases ham : k ∈ a.map Prod.fst
    · rw [if_pos hbm, if_pos ham, Nat.add_comm]
    · rw [if_pos hbm, if_neg ham]
      have hak : dictGet a k = none := (dictGet_none_iff a k).mpr ham
      have hbk : dictGet b k ≠ none := fun hh => ((dictGet_none_iff b k).mp hh) hbm
      rw [hak]
      simp only [Option.getD_none, Nat.zero_add, Nat.add_zero]
      exact some_getD_of_ne_none 0 hbk
    · rw [if_neg hbm, if_pos ham]
      have hbk : dictGet b k = none := (dictGet_none_iff b k).mpr hbm
      have hak : dictGet a k ≠ none := fun hh => ((dictGet_none_iff a k).mp hh) ham
      rw [hbk]
      simp only [Option.getD_none, Nat.zero_add, Nat.add_zero]
      exact (some_getD_of_ne_none 0 hak).symm
    · rw [if_neg hbm, if_neg ham]
      rw [(dictGet_none_iff a k).mpr ham, (dictGet_none_iff b k).mpr hbm]
  · intro a b c hndb hndc k
    have hndbc : keysNodup (add_contributors b c) := keysNodup_add_contributors b c hndb
    rw [add_contributors_lookup (add_contributors a b) c k hndc,
      add_contributors_lookup a (add_contributors b c) k hndbc]
    have hkeysbc : (k ∈ (add_contributors b c).map Prod.fst)
        ↔ (k ∈ b.map Prod.fst ∨ k ∈ c.map Prod.fst) := by
      rw [← not_iff_not]
      push_neg
      rw [← dictGet_none_iff, add_contributors_lookup b c k hndc]
      by_cases hcm : k ∈ c.map Prod.fst
      · rw [if_pos hcm]
        simp [hcm]
      · rw [if_neg hcm]
        rw [dictGet_none_iff]
        simp [hcm]
    by_cases hcm : k ∈ c.map Prod.fst
    · rw [if_pos hcm, if_pos (hkeysbc.mpr (Or.inr hcm))]
      rw [add_contributors_getD a b k hndb, add_contributors_getD b c k hndc]
      rw [Nat.add_assoc]
    · rw [if_neg hcm]
      rw [add_contributors_lookup a b k hndb]
      have hgc : dictGet c k = none := (dictGet_none_iff c k).mpr hcm
      by_cases hbm : k ∈ b.map Prod.fst
      · rw [if_pos hbm, if_pos (hkeysbc.mpr (Or.inl hbm))]
        rw [add_contributors_getD b c k hndc, hgc]
        simp
      · rw [if_neg hbm]
        rw [if_neg (fun hh => (hkeysbc.mp hh).elim hbm hcm)]

/-- Witness for C6: two concrete per-library tallies merged in both orders
give the same weights, and concrete commutativity/associativity instances. -/
theorem add_contributors_order_independent_witness :
    dictGet ([[("alice", 1)], [("alice", 2), ("bob", 1)]].foldl add_contributors []) "alice"
      = dictGet ([[("alice", 2), ("bob", 1)], [("alice", 1)]].foldl add_contributors []) "alice" ∧
    dictGet (add_contributors [("alice", 1)] [("alice", 2), ("bob", 1)]) "bob"
      = dictGet (add_contributors [("alice", 2), ("bob", 1)] [("alice", 1)]) "bob" ∧
    dictGet (add_contributors (add_contributors [("alice", 1)] [("bob", 1)]) [("alice", 4)]) "alice"
      = dictGet (add_contributors [("alice", 1)]
          (add_contributors [("bob", 1)] [("alice", 4)])) "alice" := by
  obtain ⟨h1, h2, h3⟩ := add_contributors_order_independent
  refine ⟨?_, ?_, ?_⟩
  · exact h1 [[("alice", 1)], [("alice", 2), ("bob", 1)]]
      [[("alice", 2), ("bob", 1)], [("alice", 1)]] [] (by decide)
      (by intro a ha; fin_cases ha <;> (unfold keysNodup; decide)) "alice"
  · exact h2 [("alice", 1)] [("alice", 2), ("bob", 1)]
      (by unfold keysNodup; decide) (by unfold keysNodup; decide) "bob"
  · exact h3 [("alice", 1)] [("bob", 1)] [("alice", 4)]
      (by unfold keysNodup; decide) (by unfold keysNodup; decide) "alice"

theorem string_data_append (a b : String) : (a ++ b).data = a.data ++ b.data := by
  cases a
  cases b
  rfl

theorem mk_data (s : String) : String.mk s.data = s := rfl

theorem splitChar_ne_nil (c : Char) : ∀ (l : List Char), splitChar c l ≠ [] := by
  intro l
  induction l with
  | nil => simp [splitChar]
  | cons a rest ih =>
    by_cases hac : a = c
    · simp [splitChar, hac]
    · simp only [splitChar, if_neg hac]
      cases hsp : splitChar c rest with
      | nil => exact absurd hsp ih
      | cons h t => simp

theorem splitChar_nosep (c : Char) : ∀ (l : List Char), c ∉ l → splitChar c l = [l] := by
  intro l
  induction l with
  | nil => intro _; rfl
  | cons a rest ih =>
    intro hmem
    have hac : a ≠ c := fun hh => hmem (hh ▸ List.mem_cons_self a rest)
    have hrest : c ∉ rest := fun hh => hmem (List.mem_cons_of_mem a hh)
    simp only [splitChar, if_neg hac, ih hrest]

theorem splitChar_append_sep (c : Char) :
    ∀ (xs ys : List Char), ∃ front last,
      splitChar c xs = front ++ [last] ∧
      splitChar c (xs ++ c :: ys) = front ++ last :: splitChar c ys := by
  intro xs
  induction xs with
  | nil =>
    intro ys
    exact ⟨[], [], rfl, by simp [splitChar]⟩
  | cons a xs' ih =>
    intro ys
    obtain ⟨front', last', h1, h2⟩ := ih ys
    by_cases hac : a = c
    · subst hac
      refine ⟨[] :: front', last', ?_, ?_⟩
      · simp [splitChar, h1]
      · rw [List.cons_append]
        simp [splitChar, h2]
    · cases hf : front' with
      | nil =>
        rw [hf] at h1 h2
        refine ⟨[], a :: last', ?_, ?_⟩
        · simp only [splitChar, if_neg hac, h1, List.nil_append]
        · rw [List.cons_append]
          simp only [splitChar, if_neg hac, h2, List.nil_append]
      | cons f front'' =>
        rw [hf] at h1 h2
        refine ⟨(a :: f) :: front'', last', ?_, ?_⟩
        · simp only [splitChar, if_neg hac, h1, List.cons_append]
        · rw [List.cons_append]
          simp only [splitChar, if_neg hac, h2, List.cons_append]

theorem splitChar_renderData (L : List (List Char)) :
    ∃ front, splitChar nlChar (renderData L) = front ++ [[]] ∧
      (∀ l ∈ L, nlChar ∉ l → l ∈ front) := by
  induction L with
  | nil => exact ⟨[], rfl, by simp⟩
  | cons l₀ rest ih =>
    obtain ⟨front_r, hfr, hmem_r⟩ := ih
    obtain ⟨f0, last0, h1, h2⟩ := splitChar_append_sep nlChar l₀ (renderData rest)
    refine ⟨f0 ++ last0 :: front_r, ?_, ?_⟩
    · show splitChar nlChar (l₀ ++ nlChar :: renderData rest) = _
      rw [h2, hfr]
      simp
    · intro l hl hnl
      rcases List.mem_cons.mp hl with rfl | htl
      · have hsplit : splitChar nlChar l = [l] := splitChar_nosep nlChar l hnl
        rw [hsplit] at h1
        cases hf : f0 with
        | nil =>
          rw [hf] at h1
          simp only [List.nil_append] at h1
          have hll : l = last0 := by simpa using h1
          rw [hll]
          simp
        | cons f f0' =>
          rw [hf] at h1
          have hlen := congrArg List.length h1
          simp at hlen
      · exact List.mem_append_right _ (List.mem_cons_of_mem _ (hmem_r l htl hnl))

theorem renderData_append (xs ys : List (List Char)) :
    renderData (xs ++ ys) = renderData xs ++ renderData ys := by
  induction xs with
  | nil => rfl
  | cons l rest ih => simp [renderData, ih]

theorem newline_data : ("\n" : String).data = [nlChar] := by decide

theorem nlChar_eq_newline : nlChar = ('\n') := by decide

theorem writeLines_data (L : List String) :
    (writeLines L).data = renderData (L.map String.data) := by
  induction L with
  | nil => rfl
  | cons l rest ih =>
    simp [writeLines, renderData, string_data_append, ih, newline_data]
    decide

set_option maxRecDepth 8192 in
theorem mdContent_data (n : Nat) (ds hs : List String) :
    (mdContent n ds hs).data = renderData ((mdLines n ds hs).map String.data) := by
  have e1 : (" libraries available.\n" : String).data
      = (" libraries available." : String).data ++ [nlChar] := by decide
  have e2 : ("## Drivers:\n" : String).data = ("## Drivers:" : String).data ++ [nlChar] := by
    decide
  have e3 : ("\n## Helpers:\n" : String).data
      = nlChar :: (("## Helpers:" : String).data ++ [nlChar]) := by decide
  have e4 : ("" : String).data = [] := rfl
  unfold mdContent mdLines lib_list_header
  simp only [pyJoin, List.map_append, List.map_cons, List.map_nil, renderData_append,
    renderData, string_data_append, writeLines_data, e1, e2, e3, e4, newline_data,
    List.append_assoc, List.cons_append, List.nil_append, List.singleton_append,
    List.append_nil]
  simp [nlChar_eq_newline, renderData_append, renderData]

theorem mem_splitlinesPy_render (s : String) (L : List String)
    (hdata : s.data = renderData (L.map String.data)) (l : String)
    (hl : l ∈ L) (hnl : nlChar ∉ l.data) : l ∈ splitlinesPy s := by
  obtain ⟨front, hsp, hmem⟩ := splitChar_renderData (L.map String.data)
  have hparts : pySplitNl s = front.map String.mk ++ [""] := by
    unfold pySplitNl pySplit
    rw [hdata, hsp]
    simp
  unfold splitlinesPy
  rw [hparts, if_pos (by rw [List.getLast?_concat]), List.dropLast_concat]
  have hld : l.data ∈ front := hmem l.data (List.mem_map_of_mem String.data hl) hnl
  have hmk : String.mk l.data ∈ front.map String.mk := List.mem_map_of_mem String.mk hld
  simpa [mk_data] using hmk

theorem mem_pyInsertSorted (le : α → α → Bool) (x y : α) (l : List α) :
    y ∈ pyInsertSorted le x l ↔ y = x ∨ y ∈ l := by
  induction l with
  | nil => simp [pyInsertSorted]
  | cons z zs ih =>
    simp only [pyInsertSorted]
    split_ifs <;> (try simp [ih]) <;> (try tauto)

theorem mem_pySorted (le : α → α → Bool) (l : List α) (y : α) :
    y ∈ pySorted le l ↔ y ∈ l := by
  induction l with
  | nil => simp [pySorted]
  | cons z zs ih =>
    simp only [pySorted, mem_pyInsertSorted, ih, List.mem_cons]

theorem libListStep_updates_mem (env : LibEnv) (read_lines : List String)
    (u d h : List String) (s : SubEntry) (hmem : listLine env s ∈ read_lines) :
    (libListStep env read_lines (u, d, h) s).1 = u := by
  simp only [libListStep]
  rw [if_neg (not_not_intro hmem)]
  split_ifs <;> rfl

theorem libListStep_snd_indep (env : LibEnv) (rl rl' : List String)
    (u u' d h : List String) (s : SubEntry) :
    (libListStep env rl (u, d, h) s).2 = (libListStep env rl' (u', d, h) s).2 := by
  unfold libListStep
  split_ifs <;> rfl

theorem foldl_libListStep_snd_indep (env : LibEnv) (rl rl' : List String) :
    ∀ (subs : List SubEntry) (u u' d h : List String),
      (subs.foldl (libListStep env rl) (u, d, h)).2
        = (subs.foldl (libListStep env rl') (u', d, h)).2 := by
  intro subs
  induction subs with
  | nil => intro u u' d h; rfl
  | cons s rest ih =>
    intro u u' d h
    rw [List.foldl_cons, List.foldl_cons]
    have hstep := libListStep_snd_indep env rl rl' u u' d h s
    rcases he1 : libListStep env rl (u, d, h) s with ⟨a1, d1, h1⟩
    rcases he2 : libListStep env rl' (u', d, h) s with ⟨a2, d2, h2⟩
    rw [he1, he2] at hstep
    have hstep2 : (d1, h1) = (d2, h2) := hstep
    injection hstep2 with hd2 hh2
    subst hd2
    subst hh2
    exact ih a1 a2 d1 h1

theorem foldl_libListStep_updates_of_mem (env : LibEnv) (read_lines : List String) :
    ∀ (subs : List SubEntry) (u d h : List String),
      (∀ s ∈ subs, listLine env s ∈ read_lines) →
      (subs.foldl (libListStep env read_lines) (u, d, h)).1 = u := by
  intro subs
  induction subs with
  | nil => intro u d h _; rfl
  | cons s rest ih =>
    intro u d h hall
    rw [List.foldl_cons]
    rcases he : libListStep env read_lines (u, d, h) s with ⟨a1, d1, h1⟩
    have ha1 : a1 = u := by
      have := libListStep_updates_mem env read_lines u d h s (hall s (List.mem_cons_self s rest))
      rw [he] at this
      exact this
    subst ha1
    exact ih a1 d1 h1 (fun x hx => hall x (List.mem_cons_of_mem s hx))

theorem libListStep_bucket_mono (env : LibEnv) (rl : List String)
    (u d h : List String) (s : SubEntry) (x : String) :
    (x ∈ d → x ∈ (libListStep env rl (u, d, h) s).2.1) ∧
    (x ∈ h → x ∈ (libListStep env rl (u, d, h) s).2.2) := by
  simp only [libListStep]
  split_ifs <;> constructor <;> intro hx <;> simp [hx]

theorem foldl_libListStep_bucket_mono (env : LibEnv) (rl : List String) :
    ∀ (subs : List SubEntry) (u d h : List String) (x : String),
      (x ∈ d → x ∈ (subs.foldl (libListStep env rl) (u, d, h)).2.1) ∧
      (x ∈ h → x ∈ (subs.foldl (libListStep env rl) (u, d, h)).2.2) := by
  intro subs
  induction subs with
  | nil => intro u d h x; exact ⟨id, id⟩
  | cons s rest ih =>
    intro u d h x
    rw [List.foldl_cons]
    rcases he : libListStep env rl (u, d, h) s with ⟨a1, d1, h1⟩
    have hm := libListStep_bucket_mono env rl u d h s x
    rw [he] at hm
    exact ⟨fun hx => (ih a1 d1 h1 x).1 (hm.1 hx), fun hx => (ih a1 d1 h1 x).2 (hm.2 hx)⟩

theorem foldl_libListStep_bucket_mem (env : LibEnv) (rl : List String) :
    ∀ (subs : List SubEntry) (u d h : List String) (s : SubEntry),
      s ∈ subs →
      (pyContains "drivers" s.path = true ∨ pyContains "helpers" s.path = true) →
      listLine env s ∈ (subs.foldl (libListStep env rl) (u, d, h)).2.1 ∨
      listLine env s ∈ (subs.foldl (libListStep env rl) (u, d, h)).2.2 := by
  intro subs
  induction subs with
  | nil => intro u d h s hs _; simp at hs
  | cons s₀ rest ih =>
    intro u d h s hs hcat
    rw [List.foldl_cons]
    rcases List.mem_cons.mp hs with rfl | htl
    · rcases he : libListStep env rl (u, d, h) s with ⟨a1, d1, h1⟩
      have hbucket : listLine env s ∈ d1 ∨ listLine env s ∈ h1 := by
        revert he
        simp only [libListStep]
        split_ifs <;> intro he <;>
          (injection he with h1e h2e; injection h2e with hd he2) <;>
          first
            | exact Or.inl (hd ▸ by simp)
            | exact Or.inr (he2 ▸ by simp)
            | (rcases hcat with hc | hc <;> simp_all)
      rcases hbucket with hb | hb
      · exact Or.inl ((foldl_libListStep_bucket_mono env rl rest a1 d1 h1 _).1 hb)
      · exact Or.inr ((foldl_libListStep_bucket_mono env rl rest a1 d1 h1 _).2 hb)
    · rcases he : libListStep env rl (u, d, h) s₀ with ⟨a1, d1, h1⟩
      exact ih a1 d1 h1 s htl hcat

theorem check_lib_links_md_eq (env : LibEnv) (bundle_path : String)
    (submodules : List SubEntry) (read_lines : List String)
    (hbp : pyContains "Adafruit_CircuitPython_Bundle" bundle_path = true) :
    check_lib_links_md env bundle_path submodules read_lines =
      (((pySorted (fun a b => strLe a.path b.path) submodules).foldl
          (libListStep env read_lines) ([], [], [])).1,
        some (mdContent (pySorted (fun a b => strLe a.path b.path) submodules).length
          ((pySorted (fun a b => strLe a.path b.path) submodules).foldl
            (libListStep env read_lines) ([], [], [])).2.1
          ((pySorted (fun a b => strLe a.path b.path) submodules).foldl
            (libListStep env read_lines) ([], [], [])).2.2)) := by
  unfold check_lib_links_md
  rw [if_neg (by simp [hbp])]

/-- Claim C7: for an unchanged library set (same submodules and lookup
results), running `check_lib_links_md` twice writes byte-identical listing
documents, and the second run — whose previously persisted lines are exactly
the first run's written document — reports no newly added libraries. -/
theorem check_lib_links_md_idempotent (env : LibEnv) (bundle_path : String)
    (submodules : List SubEntry) (read_lines : List String) (c1 : String)
    (hbp : pyContains "Adafruit_CircuitPython_Bundle" bundle_path = true)
    (hcat : ∀ s ∈ submodules,
      pyContains "drivers" s.path = true ∨ pyContains "helpers" s.path = true)
    (hnl : ∀ s ∈ submodules, nlChar ∉ (listLine env s).data)
    (hc : (check_lib_links_md env bundle_path submodules read_lines).2 = some c1) :
    check_lib_links_md env bundle_path submodules (splitlinesPy c1) = ([], some c1) := by
  rw [check_lib_links_md_eq env bundle_path submodules read_lines hbp] at hc
  rw [check_lib_links_md_eq env bundle_path submodules (splitlinesPy c1) hbp]
  rcases hf1 : (pySorted (fun a b => strLe a.path b.path) submodules).foldl
      (libListStep env read_lines) ([], [], []) with ⟨u1, d1, h1⟩
  rcases hf2 : (pySorted (fun a b => strLe a.path b.path) submodules).foldl
      (libListStep env (splitlinesPy c1)) ([], [], []) with ⟨u2, d2, h2⟩
  rw [hf1] at hc
  rw [hf2]
  have hc1 : mdContent (pySorted (fun a b => strLe a.path b.path) submodules).length d1 h1
      = c1 := by
    simpa using hc
  have hsnd : (d2, h2) = (d1, h1) := by
    have := foldl_libListStep_snd_indep env (splitlinesPy c1) read_lines
      (pySorted (fun a b => strLe a.path b.path) submodules) [] [] [] []
    rw [hf1, hf2] at this
    exact this
  injection hsnd with hd2 hh2
  rw [hd2, hh2]
  rw [hd2, hh2] at hf2
  have hdata : c1.data = renderData (((mdLines
      (pySorted (fun a b => strLe a.path b.path) submodules).length d1 h1).map
        String.data)) := by
    rw [← hc1]
    exact mdContent_data _ d1 h1
  have hall : ∀ s ∈ pySorted (fun a b => strLe a.path b.path) submodules,
      listLine env s ∈ splitlinesPy c1 := by
    intro s hs
    have hsub : s ∈ submodules := (mem_pySorted _ _ s).mp hs
    have hbucket := foldl_libListStep_bucket_mem env read_lines
      (pySorted (fun a b => strLe a.path b.path) submodules) [] [] [] s hs (hcat s hsub)
    rw [hf1] at hbucket
    have hlineMem : listLine env s ∈ mdLines
        (pySorted (fun a b => strLe a.path b.path) submodules).length d1 h1 := by
      unfold mdLines
      rcases hbucket with hb | hb
      · have : listLine env s ∈ pySorted strLe d1 := (mem_pySorted strLe d1 _).mpr hb
        simp [this]
      · have : listLine env s ∈ pySorted strLe h1 := (mem_pySorted strLe h1 _).mpr hb
        simp [this]
    exact mem_splitlinesPy_render c1 _ hdata (listLine env s) hlineMem (hnl s hsub)
  have hu2 : u2 = [] := by
    have := foldl_libListStep_updates_of_mem env (splitlinesPy c1)
      (pySorted (fun a b => strLe a.path b.path) submodules) [] [] [] hall
    rw [hf2] at this
    exact this
  rw [hu2, hc1]

set_option maxRecDepth 16384 in
/-- Witness for C7: on the concrete one-driver bundle, the second run
reproduces the first run's document byte for byte and reports no
additions. -/
theorem check_lib_links_md_idempotent_witness :
    check_lib_links_md demoLibEnv "bundles/Adafruit_CircuitPython_Bundle" demoSubs
      (splitlinesPy demoContent) = ([], some demoContent) :=
  check_lib_links_md_idempotent demoLibEnv "bundles/Adafruit_CircuitPython_Bundle" demoSubs
    [] demoContent (by decide) (by decide) (by decide) (by decide)

/-- Claim C8: when the diff between the last published tag and the current
head is empty, `new_release` returns before building any release payload —
the result carries no `Release` (and hence nothing is posted to the
release-creation endpoint, since the returned payload is what gets
posted). -/
theorem new_release_noop (env : RelEnv) (bundle : String) (cache : Cache)
    (t : Tally) (κ : Cache) (msgs : List String)
    (hdiff : pyStrip env.diffShort = "")
    (hc : get_contributors (env.gitLog ".") (env.ghCommit ("adafruit/" ++ bundle))
      ("adafruit/" ++ bundle) (env.latestTag ++ "..") cache = .ok (t, κ, msgs)) :
    new_release env bundle cache = .ok (none, κ) := by
  simp only [new_release]
  rw [hc]
  show (if pyStrip env.diffShort = ""
      then (Except.ok (none, κ) : Except Exc (Option Release × Cache)) else _)
    = Except.ok (none, κ)
  rw [if_pos hdiff]

/-- Witness for C8: with an empty diff the concrete run emits no release. -/
theorem new_release_noop_witness :
    new_release stubRelEnv "Adafruit_CircuitPython_Bundle" [] = .ok (none, []) :=
  new_release_noop stubRelEnv "Adafruit_CircuitPython_Bundle" [] [] []
    ["Skipping contributors for: adafruit/Adafruit_CircuitPython_Bundle"]
    (by decide) (by decide)

/-- Claim C9: a submodule change whose commit range ends with the all-zero
sentinel (a removed library) is skipped by the diff-scan step of
`new_release`: the state is returned unchanged — for every environment, so
no tag resolution or contributor lookup can contribute — and in particular
the library's name joins neither the added nor the updated list. -/
theorem relStep_removed (st : RelState) (line directory idx commit_range : String)
    (h1 : pyStartswith line "diff" = false)
    (h2 : pyContains "index" line = false)
    (h3 : pyStartswith line "+Subproject" = true)
    (h4 : st.current_submodule = some directory)
    (h5 : st.current_index = some idx)
    (h6 : (pySplitWs idx)[1]? = some commit_range)
    (h7 : pyStartswith commit_range "0000000" = false)
    (h8 : pyEndswith commit_range "0000000" = true) :
    ∀ env : RelEnv, relStep env st line = .ok st := by
  intro env
  unfold relStep
  rw [if_neg (by simp [h1]), if_neg (by simp [h2]), if_neg (by simp [h3]), h4, h5]
  simp only [h6]
  rw [if_neg (by simp [h7]), if_pos h8]

/-- Witness for C9: a concrete removed-library diff entry
(`index abc1234..0000000 160000`) leaves the scan state untouched. -/
theorem relStep_removed_witness :
    relStep stubRelEnv
      ⟨some "libraries/drivers/foo", some "index abc1234..0000000 160000",
        ["prev_add"], ["prev_upd"], [], [], []⟩
      "+Subproject commit 0000000000000000000000000000000000000000"
      = .ok ⟨some "libraries/drivers/foo", some "index abc1234..0000000 160000",
        ["prev_add"], ["prev_upd"], [], [], []⟩ :=
  relStep_removed
    ⟨some "libraries/drivers/foo", some "index abc1234..0000000 160000",
      ["prev_add"], ["prev_upd"], [], [], []⟩
    "+Subproject commit 0000000000000000000000000000000000000000"
    "libraries/drivers/foo" "index abc1234..0000000 160000" "abc1234..0000000"
    (by decide) (by decide) (by decide) (by decide) (by decide) (by decide)
    (by decide) (by decide) stubRelEnv
